import Mathlib

/-!
Shallow embedding of `src/filesystem_utils.h` (POSIX branch) from
rife-ncnn-vulkan-minimal.

Path strings (`std::string`) are modelled as lists of byte values
(`List Nat`).  `std::isdigit` / `std::toupper` are modelled in the
"C" locale.  `std::istringstream >> int` on a digit-leading string
parses the maximal digit run and, on overflow, stores the clamped value
`INT_MAX` and sets the fail state (C++11 semantics); a following
`std::getline` then leaves the target string empty.  When the stream is
good, `std::getline` yields the characters up to (excluding) the first
newline and discards the rest.

The recursion of `compare_path_natural` is not structural (the digit
branch strips a whole digit run), so it is embedded with an explicit
fuel parameter bounding the recursion depth; `compare_path_natural`
runs it with fuel `a.length + b.length + 1`, which is proved to always
suffice, and any sufficient fuel is proved to yield the same answer, so
the wrapper satisfies exactly the source's recursion equations.
-/

/-- `INT_MAX` for the 32-bit `int` read by `istringstream >> int`. -/
def INT_MAX : Nat := 2147483647

/-- `std::isdigit` in the "C" locale: the byte is one of `0..9`. -/
def isdigit (c : Nat) : Bool := 48 ≤ c && c ≤ 57

/-- `std::toupper` in the "C" locale: maps lowercase ASCII letters to
uppercase, all other byte values unchanged. -/
def toupper (c : Nat) : Nat := if 97 ≤ c && c ≤ 122 then c - 32 else c

/-- Numeric value of a digit run (the mathematically exact integer the
run denotes, before any clamping). -/
def digitsToNat (l : List Nat) : Nat := l.foldl (fun acc c => 10 * acc + (c - 48)) 0

/-- State of the `istringstream` after `iss >> i; std::getline(iss, rest)`
on a digit-leading string `s` whose digit run has exact value `v`: on
overflow the stream fails and `getline` leaves `rest` empty; otherwise
`rest` is the text after the digit run up to (excluding) the first
newline, the tail after that newline being discarded by `getline`. -/
def streamRest (v : Nat) (s : List Nat) : List Nat :=
  if INT_MAX < v then [] else (s.dropWhile isdigit).takeWhile (fun c => c != 10)

theorem streamRest_length_lt (v : Nat) (c : Nat) (rest : List Nat)
    (h : isdigit c = true) : (streamRest v (c :: rest)).length < (c :: rest).length := by
  unfold streamRest
  split
  · simp
  · calc (((c :: rest).dropWhile isdigit).takeWhile (fun c => c != 10)).length
        ≤ ((c :: rest).dropWhile isdigit).length := (List.takeWhile_sublist _).length_le
      _ = (rest.dropWhile isdigit).length := by rw [List.dropWhile_cons_of_pos (by simp [h])]
      _ ≤ rest.length := (List.dropWhile_sublist _).length_le
      _ < (c :: rest).length := by simp

/-- `compare_path_natural` from `src/filesystem_utils.h:33-66`, with
explicit fuel bounding the recursion depth; `none` means the fuel ran
out before the recursion finished. -/
def compare_fuel : Nat → List Nat → List Nat → Option Bool
  | 0, _, _ => none
  | fuel + 1, a, b =>
    match a, b with
    | [], [] => some false
    | [], _ :: _ => some true
    | _ :: _, [] => some false
    | charA :: arest, charB :: brest =>
      if isdigit charA && !isdigit charB then some true
      else if !isdigit charA && isdigit charB then some false
      else if !isdigit charA && !isdigit charB then
        if toupper charA = toupper charB then
          compare_fuel fuel arest brest
        else
          some (decide (toupper charA < toupper charB))
      else
        let va := digitsToNat ((charA :: arest).takeWhile isdigit)
        let vb := digitsToNat ((charB :: brest).takeWhile isdigit)
        if min va INT_MAX ≠ min vb INT_MAX then
          some (decide (min va INT_MAX < min vb INT_MAX))
        else
          compare_fuel fuel (streamRest va (charA :: arest)) (streamRest vb (charB :: brest))

/-- `compare_path_natural` from `src/filesystem_utils.h:33-66`: the
"less-than" comparator for natural path ordering, run with provably
sufficient fuel. -/
def compare_path_natural (a b : List Nat) : Bool :=
  (compare_fuel (a.length + b.length + 1) a b).getD false

theorem compare_fuel_zero (a b : List Nat) : compare_fuel 0 a b = none := rfl

theorem compare_fuel_nil_nil (f : Nat) : compare_fuel (f + 1) [] [] = some false := rfl

theorem compare_fuel_nil_cons (f c : Nat) (l : List Nat) :
    compare_fuel (f + 1) [] (c :: l) = some true := rfl

theorem compare_fuel_cons_nil (f c : Nat) (l : List Nat) :
    compare_fuel (f + 1) (c :: l) [] = some false := rfl

theorem compare_fuel_cons_cons (f charA charB : Nat) (arest brest : List Nat) :
    compare_fuel (f + 1) (charA :: arest) (charB :: brest) =
      (if isdigit charA && !isdigit charB then some true
      else if !isdigit charA && isdigit charB then some false
      else if !isdigit charA && !isdigit charB then
        if toupper charA = toupper charB then
          compare_fuel f arest brest
        else
          some (decide (toupper charA < toupper charB))
      else
        if min (digitsToNat ((charA :: arest).takeWhile isdigit)) INT_MAX
            ≠ min (digitsToNat ((charB :: brest).takeWhile isdigit)) INT_MAX then
          some (decide (min (digitsToNat ((charA :: arest).takeWhile isdigit)) INT_MAX
            < min (digitsToNat ((charB :: brest).takeWhile isdigit)) INT_MAX))
        else
          compare_fuel f
            (streamRest (digitsToNat ((charA :: arest).takeWhile isdigit)) (charA :: arest))
            (streamRest (digitsToNat ((charB :: brest).takeWhile isdigit)) (charB :: brest))) := rfl

/-!
Per-string tokenisation: the comparison consumes each operand
independently, turning it into a sequence of keys (a clamped numeric
key for each digit run, a shifted character key for each other byte);
`compare_path_natural` is then exactly the strict lexicographic order
on key sequences.  Numeric keys are at most `INT_MAX`; character keys
are at least `INT_MAX + 1`, capturing the digits-before-others rule.
-/

/-- Key of a non-digit byte: its uppercased value shifted above every
numeric key. -/
def chrKey (c : Nat) : Nat := INT_MAX + 1 + toupper c

/-- Key sequence of one path string, mirroring how the comparison
consumes it. -/
def tokens : List Nat → List Nat
  | [] => []
  | c :: rest =>
    if h : isdigit c then
      min (digitsToNat ((c :: rest).takeWhile isdigit)) INT_MAX
        :: tokens (streamRest (digitsToNat ((c :: rest).takeWhile isdigit)) (c :: rest))
    else
      chrKey c :: tokens rest
termination_by l => l.length
decreasing_by
  · exact streamRest_length_lt _ c rest h
  · simp

theorem tokens_nil : tokens [] = [] := by rw [tokens]

theorem tokens_cons_digit (c : Nat) (rest : List Nat) (h : isdigit c = true) :
    tokens (c :: rest) =
      min (digitsToNat ((c :: rest).takeWhile isdigit)) INT_MAX
        :: tokens (streamRest (digitsToNat ((c :: rest).takeWhile isdigit)) (c :: rest)) := by
  rw [tokens]
  simp [h]

theorem tokens_cons_chr (c : Nat) (rest : List Nat) (h : isdigit c = false) :
    tokens (c :: rest) = chrKey c :: tokens rest := by
  rw [tokens]
  simp [h]

/-- Strict lexicographic order on key sequences. -/
def lexLt : List Nat → List Nat → Bool
  | [], [] => false
  | [], _ :: _ => true
  | _ :: _, [] => false
  | s :: ss, t :: ts => decide (s < t) || (s == t && lexLt ss ts)

theorem numKey_le (v : Nat) : min v INT_MAX ≤ INT_MAX := Nat.min_le_right _ _

theorem lt_chrKey (v c : Nat) : min v INT_MAX < chrKey c := by
  have := numKey_le v
  unfold chrKey
  omega

/-- Master lemma: with sufficient fuel, the comparison computes the
strict lexicographic order of the two key sequences. -/
theorem compare_fuel_eq_lexLt :
    ∀ f a b, a.length + b.length < f →
      compare_fuel f a b = some (lexLt (tokens a) (tokens b)) := by
  intro f
  induction f with
  | zero => intro a b hf; omega
  | succ f ih =>
    intro a b hf
    match a, b with
    | [], [] => rw [compare_fuel_nil_nil, tokens_nil, lexLt]
    | [], c :: l =>
      rw [compare_fuel_nil_cons, tokens_nil]
      cases hc : isdigit c
      · rw [tokens_cons_chr c l hc, lexLt]
      · rw [tokens_cons_digit c l hc, lexLt]
    | c :: l, [] =>
      rw [compare_fuel_cons_nil, tokens_nil]
      cases hc : isdigit c
      · rw [tokens_cons_chr c l hc, lexLt]
      · rw [tokens_cons_digit c l hc, lexLt]
    | charA :: arest, charB :: brest =>
      rw [compare_fuel_cons_cons]
      cases hA : isdigit charA <;> cases hB : isdigit charB
      · -- both non-digit
        rw [tokens_cons_chr charA arest hA, tokens_cons_chr charB brest hB, lexLt]
        simp only [hA, hB, Bool.not_false, Bool.and_self, Bool.false_and, Bool.and_false,
          Bool.true_and, Bool.and_true, Bool.false_eq_true, if_false, if_true]
        by_cases he : toupper charA = toupper charB
        · rw [if_pos he]
          rw [ih arest brest (by simp at hf ⊢; omega)]
          have h1 : decide (chrKey charA < chrKey charB) = false := by
            simp [chrKey, he]
          have h2 : (chrKey charA == chrKey charB) = true := by
            simp [chrKey, he]
          rw [h1, h2]
          simp
        · rw [if_neg he]
          have h2 : (chrKey charA == chrKey charB) = false := by
            simp [chrKey]
            omega
          have h1 : decide (chrKey charA < chrKey charB) = decide (toupper charA < toupper charB) := by
            simp [chrKey]
          rw [h1, h2]
          simp
      · -- a non-digit, b digit
        rw [tokens_cons_chr charA arest hA, tokens_cons_digit charB brest hB, lexLt]
        simp only [hA, hB, Bool.not_false, Bool.not_true, Bool.false_and, Bool.and_false,
          Bool.true_and, Bool.and_true, Bool.and_self, Bool.false_eq_true, if_false, if_true]
        have h1 : decide (chrKey charA < min (digitsToNat ((charB :: brest).takeWhile isdigit)) INT_MAX) = false := by
          have := lt_chrKey (digitsToNat ((charB :: brest).takeWhile isdigit)) charA
          simp
          omega
        have h2 : (chrKey charA == min (digitsToNat ((charB :: brest).takeWhile isdigit)) INT_MAX) = false := by
          have := lt_chrKey (digitsToNat ((charB :: brest).takeWhile isdigit)) charA
          simp
          omega
        rw [h1, h2]
        simp
      · -- a digit, b non-digit
        rw [tokens_cons_digit charA arest hA, tokens_cons_chr charB brest hB, lexLt]
        simp only [hA, hB, Bool.not_false, Bool.not_true, Bool.false_and, Bool.and_false,
          Bool.true_and, Bool.and_true, Bool.and_self, Bool.false_eq_true, if_false, if_true]
        have h1 : decide (min (digitsToNat ((charA :: arest).takeWhile isdigit)) INT_MAX < chrKey charB) = true := by
          have := lt_chrKey (digitsToNat ((charA :: arest).takeWhile isdigit)) charB
          simp
          omega
        rw [h1]
        simp
      · -- both digit
        rw [tokens_cons_digit charA arest hA, tokens_cons_digit charB brest hB, lexLt]
        simp only [hA, hB, Bool.not_true, Bool.false_and, Bool.and_false, Bool.true_and,
          Bool.and_true, Bool.and_self, Bool.false_eq_true, if_false, if_true]
        by_cases he : min (digitsToNat ((charA :: arest).takeWhile isdigit)) INT_MAX
            = min (digitsToNat ((charB :: brest).takeWhile isdigit)) INT_MAX
        · rw [if_neg (by simp [he])]
          have l1 := streamRest_length_lt (digitsToNat ((charA :: arest).takeWhile isdigit)) charA arest hA
          have l2 := streamRest_length_lt (digitsToNat ((charB :: brest).takeWhile isdigit)) charB brest hB
          rw [ih _ _ (by simp only [List.length_cons] at hf l1 l2; omega)]
          rw [he]
          simp
        · rw [if_pos he]
          have h1 : (min (digitsToNat ((charA :: arest).takeWhile isdigit)) INT_MAX
              == min (digitsToNat ((charB :: brest).takeWhile isdigit)) INT_MAX) = false := by
            simp [he]
          rw [h1]
          simp

/-- With fuel exceeding the combined length, the fuelled recursion
finishes and computes `compare_path_natural`. -/
theorem compare_fuel_sufficient (f : Nat) (a b : List Nat)
    (h : a.length + b.length < f) :
    compare_fuel f a b = some (compare_path_natural a b) := by
  rw [compare_fuel_eq_lexLt f a b h, compare_path_natural,
    compare_fuel_eq_lexLt (a.length + b.length + 1) a b (by omega)]
  rfl

/-- The comparator is the strict lexicographic order on key sequences. -/
theorem compare_path_natural_eq_lexLt (a b : List Nat) :
    compare_path_natural a b = lexLt (tokens a) (tokens b) := by
  rw [compare_path_natural, compare_fuel_eq_lexLt (a.length + b.length + 1) a b (by omega)]
  rfl

/-! Order-theoretic facts about `lexLt`, transferred to
`compare_path_natural` through `compare_path_natural_eq_lexLt`. -/

theorem lexLt_irrefl : ∀ l : List Nat, lexLt l l = false := by
  intro l
  induction l with
  | nil => rw [lexLt]
  | cons x xs ih =>
    rw [lexLt, ih]
    simp

theorem lexLt_asymm : ∀ l m : List Nat, lexLt l m = true → lexLt m l = false := by
  intro l
  induction l with
  | nil =>
    intro m hm
    cases m with
    | nil => rw [lexLt] at hm; exact absurd hm (by simp)
    | cons y ys => rw [lexLt]
  | cons x xs ih =>
    intro m hm
    cases m with
    | nil => rw [lexLt] at hm; exact absurd hm (by simp)
    | cons y ys =>
      rw [lexLt] at hm ⊢
      simp only [Bool.or_eq_true, Bool.and_eq_true, decide_eq_true_eq, beq_iff_eq] at hm
      rcases hm with hlt | ⟨heq, hrec⟩
      · simp
        omega
      · subst heq
        rw [ih ys hrec]
        simp

theorem lexLt_trans : ∀ l m n : List Nat, lexLt l m = true → lexLt m n = true → lexLt l n = true := by
  intro l
  induction l with
  | nil =>
    intro m n hlm hmn
    cases n with
    | nil =>
      cases m with
      | nil => exact hlm
      | cons y ys => rw [lexLt] at hmn; exact absurd hmn (by simp)
    | cons z zs => rw [lexLt]
  | cons x xs ih =>
    intro m n hlm hmn
    cases m with
    | nil => rw [lexLt] at hlm; exact absurd hlm (by simp)
    | cons y ys =>
      cases n with
      | nil => rw [lexLt] at hmn; exact absurd hmn (by simp)
      | cons z zs =>
        rw [lexLt] at hlm hmn ⊢
        simp only [Bool.or_eq_true, Bool.and_eq_true, decide_eq_true_eq, beq_iff_eq] at hlm hmn ⊢
        rcases hlm with h1 | ⟨e1, r1⟩ <;> rcases hmn with h2 | ⟨e2, r2⟩
        · exact Or.inl (Nat.lt_trans h1 h2)
        · subst e2; exact Or.inl h1
        · subst e1; exact Or.inl h2
        · subst e1; subst e2; exact Or.inr ⟨rfl, ih ys zs r1 r2⟩

theorem lexLt_eq_of_incomp : ∀ l m : List Nat, lexLt l m = false → lexLt m l = false → l = m := by
  intro l
  induction l with
  | nil =>
    intro m hlm _
    cases m with
    | nil => rfl
    | cons y ys => rw [lexLt] at hlm; exact absurd hlm (by simp)
  | cons x xs ih =>
    intro m hlm hml
    cases m with
    | nil => rw [lexLt] at hml; exact absurd hml (by simp)
    | cons y ys =>
      rw [lexLt] at hlm hml
      simp only [Bool.or_eq_false_iff, Bool.and_eq_false_iff, decide_eq_false_iff_not,
        beq_eq_false_iff_ne, ne_eq] at hlm hml
      have hxy : x = y := by
        rcases hlm with ⟨h1, _⟩
        rcases hml with ⟨h2, _⟩
        omega
      subst hxy
      rcases hlm with ⟨_, h1⟩
      rcases hml with ⟨_, h2⟩
      rcases h1 with h1 | h1
      · exact absurd rfl h1
      · rcases h2 with h2 | h2
        · exact absurd rfl h2
        · rw [ih ys h1 h2]

/-! The strict-weak-ordering facts for `compare_path_natural` itself. -/

theorem compare_irrefl (a : List Nat) : compare_path_natural a a = false := by
  rw [compare_path_natural_eq_lexLt]
  exact lexLt_irrefl _

theorem compare_asymm (a b : List Nat) (h : compare_path_natural a b = true) :
    compare_path_natural b a = false := by
  rw [compare_path_natural_eq_lexLt] at h ⊢
  exact lexLt_asymm _ _ h

theorem compare_trans (a b c : List Nat) (h1 : compare_path_natural a b = true)
    (h2 : compare_path_natural b c = true) : compare_path_natural a c = true := by
  rw [compare_path_natural_eq_lexLt] at h1 h2 ⊢
  exact lexLt_trans _ _ _ h1 h2

theorem compare_tokens_eq_of_incomp (a b : List Nat)
    (h1 : compare_path_natural a b = false) (h2 : compare_path_natural b a = false) :
    tokens a = tokens b := by
  rw [compare_path_natural_eq_lexLt] at h1 h2
  exact lexLt_eq_of_incomp _ _ h1 h2

theorem compare_incomp_trans (a b c : List Nat)
    (hab : compare_path_natural a b = false ∧ compare_path_natural b a = false)
    (hbc : compare_path_natural b c = false ∧ compare_path_natural c b = false) :
    compare_path_natural a c = false ∧ compare_path_natural c a = false := by
  have e1 := compare_tokens_eq_of_incomp a b hab.1 hab.2
  have e2 := compare_tokens_eq_of_incomp b c hbc.1 hbc.2
  rw [compare_path_natural_eq_lexLt, compare_path_natural_eq_lexLt, e1, e2]
  exact ⟨lexLt_irrefl _, lexLt_irrefl _⟩

/-- The negated comparator (a "not greater" test) is transitive; this is
what sortedness preservation needs. -/
theorem compare_not_trans (a b c : List Nat)
    (h1 : compare_path_natural b a = false) (h2 : compare_path_natural c b = false) :
    compare_path_natural c a = false := by
  rw [compare_path_natural_eq_lexLt] at h1 h2 ⊢
  rcases hba : lexLt (tokens a) (tokens b) with _ | _
  · rw [lexLt_eq_of_incomp _ _ hba h1]
    exact h2
  · rcases hcb : lexLt (tokens b) (tokens c) with _ | _
    · rw [← lexLt_eq_of_incomp _ _ hcb h2]
      exact h1
    · rcases hca : lexLt (tokens c) (tokens a) with _ | _
      · rfl
      · have := lexLt_trans _ _ _ hca hba
        rw [this] at h2
        exact absurd h2 (by simp)

/-!
`std::sort(imagepaths.begin(), imagepaths.end(), compare_path_natural)`
(`src/filesystem_utils.h:124`) is modelled as a deterministic comparison
sort driven by `compare_path_natural` as its strict "less-than"
predicate (insertion sort, which is stable and places an element after
every element not greater than it).
-/

/-- Insert one path into an already sorted run, keeping it behind every
element that is less than it. -/
def insertPath (a : List Nat) : List (List Nat) → List (List Nat)
  | [] => [a]
  | y :: ys => if compare_path_natural y a then y :: insertPath a ys else a :: y :: ys

/-- The sort call of `list_directory`. -/
def sortPaths : List (List Nat) → List (List Nat)
  | [] => []
  | x :: xs => insertPath x (sortPaths xs)

/-- "Sorted ascending by `compare_path_natural`": no element is less
than any element before it. -/
def SortedNat (l : List (List Nat)) : Prop :=
  l.Pairwise (fun x y => compare_path_natural y x = false)

theorem insertPath_perm (a : List Nat) : ∀ l, (insertPath a l).Perm (a :: l) := by
  intro l
  induction l with
  | nil => rw [insertPath]
  | cons y ys ih =>
    rw [insertPath]
    split
    · exact ((ih.cons y).trans (List.Perm.swap a y ys))
    · rfl

theorem sortPaths_perm : ∀ l, (sortPaths l).Perm l := by
  intro l
  induction l with
  | nil => rw [sortPaths]
  | cons x xs ih =>
    rw [sortPaths]
    exact (insertPath_perm x (sortPaths xs)).trans (ih.cons x)

theorem insertPath_sorted (a : List Nat) :
    ∀ l, SortedNat l → SortedNat (insertPath a l) := by
  intro l
  induction l with
  | nil =>
    intro _
    rw [insertPath]
    exact List.pairwise_singleton _ _
  | cons y ys ih =>
    intro hs
    rw [SortedNat, List.pairwise_cons] at hs
    obtain ⟨hy, hys⟩ := hs
    rw [insertPath]
    split
    · rename_i hcmp
      rw [SortedNat, List.pairwise_cons]
      constructor
      · intro z hz
        have hz' := (insertPath_perm a ys).mem_iff.mp hz
        rw [List.mem_cons] at hz'
        rcases hz' with hz' | hz'
        · subst hz'
          exact compare_asymm y z hcmp
        · exact hy z hz'
      · exact ih hys
    · rename_i hcmp
      rw [SortedNat, List.pairwise_cons]
      constructor
      · intro z hz
        rw [List.mem_cons] at hz
        rcases hz with hz | hz
        · subst hz
          simpa using hcmp
        · exact compare_not_trans a y z (by simpa using hcmp) (hy z hz)
      · exact List.pairwise_cons.mpr ⟨hy, hys⟩

theorem sortPaths_sorted : ∀ l, SortedNat (sortPaths l) := by
  intro l
  induction l with
  | nil => rw [sortPaths]; exact List.Pairwise.nil
  | cons x xs ih =>
    rw [sortPaths]
    exact insertPath_sorted x (sortPaths xs) ih

theorem sortPaths_of_sorted : ∀ l, SortedNat l → sortPaths l = l := by
  intro l
  induction l with
  | nil => intro _; rw [sortPaths]
  | cons x xs ih =>
    intro hs
    rw [SortedNat, List.pairwise_cons] at hs
    obtain ⟨hx, hxs⟩ := hs
    rw [sortPaths, ih hxs]
    cases xs with
    | nil => rw [insertPath]
    | cons y ys =>
      rw [insertPath, if_neg]
      rw [hx y (by simp)]
      simp

/-- `DT_REG` from `dirent.h`: the entry-type code for a regular file. -/
def DT_REG : Nat := 8

/-- `DT_DIR` from `dirent.h`: the entry-type code for a directory. -/
def DT_DIR : Nat := 4

/-- A `struct dirent` as consumed by `list_directory`: the entry name
(relative to the directory) and the `d_type` classification reported by
`readdir`. -/
structure Dirent where
  d_name : List Nat
  d_type : Nat
deriving DecidableEq

/-- `list_directory` from `src/filesystem_utils.h:105-127`.  The OS
`opendir`/`readdir` collaborator is modelled by the argument: `none`
when the directory cannot be opened, otherwise the entries in
enumeration order.  The result is the returned status code together
with the `imagepaths` output vector: on failure the vector stays
cleared; on success it holds the `d_name` of every `DT_REG` entry,
sorted with `compare_path_natural`. -/
def list_directory (dir : Option (List Dirent)) : Int × List (List Nat) :=
  match dir with
  | none => (-1, [])
  | some ents =>
    (0, sortPaths ((ents.filter (fun e => e.d_type == DT_REG)).map (fun e => e.d_name)))

/-- `path_t::rfind(c)` : index of the last occurrence of byte `c`,
`none` standing for `npos`. -/
def rfind (l : List Nat) (c : Nat) : Option Nat :=
  match l with
  | [] => none
  | x :: xs =>
    match rfind xs c with
    | some i => some (i + 1)
    | none => if x = c then some 0 else none

/-- `get_file_name_without_extension` from `src/filesystem_utils.h:130-136`. -/
def get_file_name_without_extension (path : List Nat) : List Nat :=
  match rfind path 46 with
  | none => path
  | some dot => path.take dot

/-- `get_file_extension` from `src/filesystem_utils.h:138-144`. -/
def get_file_extension (path : List Nat) : List Nat :=
  match rfind path 46 with
  | none => []
  | some dot => path.drop (dot + 1)

theorem rfind_eq_none_iff (c : Nat) : ∀ l : List Nat, rfind l c = none ↔ c ∉ l := by
  intro l
  induction l with
  | nil => simp [rfind]
  | cons x xs ih =>
    cases h : rfind xs c with
    | some i =>
      have hcx : c ∈ xs := by
        by_contra hc
        rw [ih.mpr hc] at h
        exact absurd h (by simp)
      simp only [rfind, h, reduceCtorEq, false_iff, not_not]
      exact List.mem_cons_of_mem x hcx
    | none =>
      have hxs := ih.mp h
      simp only [rfind, h]
      split
      · rename_i hx
        subst hx
        constructor
        · intro hfalse
          exact absurd hfalse (by simp)
        · intro hmem
          exact absurd (List.mem_cons_self _ _) hmem
      · rename_i hx
        constructor
        · intro _
          rw [List.mem_cons]
          push_neg
          exact ⟨fun hcx => hx hcx.symm, hxs⟩
        · intro _
          rfl

theorem rfind_some (c : Nat) :
    ∀ (l : List Nat) (i : Nat), rfind l c = some i →
      l.take i ++ c :: l.drop (i + 1) = l ∧ c ∉ l.drop (i + 1) := by
  intro l
  induction l with
  | nil => intro i h; exact absurd h (by simp [rfind])
  | cons x xs ih =>
    intro i h
    cases hr : rfind xs c with
    | some j =>
      simp only [rfind, hr, Option.some.injEq] at h
      subst h
      obtain ⟨h1, h2⟩ := ih j hr
      constructor
      · rw [List.take_succ_cons, List.drop_succ_cons]
        rw [List.cons_append, h1]
      · rw [List.drop_succ_cons]
        exact h2
    | none =>
      simp only [rfind, hr] at h
      split at h
      · rename_i hx
        simp only [Option.some.injEq] at h
        subst h
        refine ⟨by simp [hx], ?_⟩
        simpa using (rfind_eq_none_iff c xs).mp hr
      · exact absurd h (by simp)

/-!
Case-insensitivity: two strings whose bytes agree pointwise after
`toupper` produce identical key sequences -- digits are fixed by
`toupper`, so related digit runs are literally equal, and newline bytes
are related only to newline bytes.
-/

theorem toupper_spec (c : Nat) :
    (97 ≤ c ∧ c ≤ 122 ∧ toupper c = c - 32) ∨ ((c < 97 ∨ 122 < c) ∧ toupper c = c) := by
  unfold toupper
  split
  · rename_i hcc
    simp only [Bool.and_eq_true, decide_eq_true_eq] at hcc
    exact Or.inl ⟨hcc.1, hcc.2, rfl⟩
  · rename_i hcc
    simp only [Bool.and_eq_true, decide_eq_true_eq, not_and, not_le] at hcc
    refine Or.inr ⟨?_, rfl⟩
    rcases Nat.lt_or_ge c 97 with h | h
    · exact Or.inl h
    · exact Or.inr (hcc h)

theorem toupper_eq_cases (c d : Nat) (h : toupper c = toupper d) :
    isdigit c = isdigit d ∧ (isdigit c = true → c = d) ∧ (c = 10 ↔ d = 10) := by
  rcases toupper_spec c with ⟨hc1, hc2, hc3⟩ | ⟨hc1, hc3⟩ <;>
    rcases toupper_spec d with ⟨hd1, hd2, hd3⟩ | ⟨hd1, hd3⟩ <;>
    rw [hc3, hd3] at h <;>
    refine ⟨?_, fun hdigc => ?_, by omega⟩ <;>
    [skip; (simp only [isdigit, Bool.and_eq_true, decide_eq_true_eq] at hdigc; omega);
     skip; (simp only [isdigit, Bool.and_eq_true, decide_eq_true_eq] at hdigc; omega);
     skip; (simp only [isdigit, Bool.and_eq_true, decide_eq_true_eq] at hdigc; omega);
     skip; (simp only [isdigit, Bool.and_eq_true, decide_eq_true_eq] at hdigc; omega)] <;>
    (rw [Bool.eq_iff_iff]; simp only [isdigit, Bool.and_eq_true, decide_eq_true_eq]; omega)

/-- Pointwise `toupper`-equality of byte strings. -/
def CaseEq (a b : List Nat) : Prop :=
  List.Forall₂ (fun c d => toupper c = toupper d) a b

theorem CaseEq_takeWhile_digits : ∀ a b, CaseEq a b →
    a.takeWhile isdigit = b.takeWhile isdigit := by
  intro a b h
  induction h with
  | nil => rfl
  | cons hcd hrest ih =>
    rename_i c d a' b'
    obtain ⟨hdig, heqd, _⟩ := toupper_eq_cases c d hcd
    cases hc : isdigit c with
    | true =>
      rw [List.takeWhile_cons_of_pos hc, List.takeWhile_cons_of_pos (hdig ▸ hc), ih,
        heqd hc]
    | false =>
      rw [List.takeWhile_cons_of_neg (by simp [hc]), List.takeWhile_cons_of_neg (by simp [hdig ▸ hc])]

theorem CaseEq_dropWhile_digits : ∀ a b, CaseEq a b →
    CaseEq (a.dropWhile isdigit) (b.dropWhile isdigit) := by
  intro a b h
  induction h with
  | nil => exact List.Forall₂.nil
  | cons hcd hrest ih =>
    rename_i c d a' b'
    obtain ⟨hdig, _, _⟩ := toupper_eq_cases c d hcd
    cases hc : isdigit c with
    | true =>
      rw [List.dropWhile_cons_of_pos hc, List.dropWhile_cons_of_pos (hdig ▸ hc)]
      exact ih
    | false =>
      rw [List.dropWhile_cons_of_neg (by simp [hc]), List.dropWhile_cons_of_neg (by simp [hdig ▸ hc])]
      exact List.Forall₂.cons hcd hrest

theorem CaseEq_takeWhile_ne10 : ∀ a b, CaseEq a b →
    CaseEq (a.takeWhile (fun c => c != 10)) (b.takeWhile (fun c => c != 10)) := by
  intro a b h
  induction h with
  | nil => exact List.Forall₂.nil
  | cons hcd hrest ih =>
    rename_i c d a' b'
    obtain ⟨_, _, h10⟩ := toupper_eq_cases c d hcd
    by_cases hc : c = 10
    · rw [List.takeWhile_cons_of_neg (by simp [hc]), List.takeWhile_cons_of_neg (by simp [h10.mp hc])]
      exact List.Forall₂.nil
    · rw [List.takeWhile_cons_of_pos (by simp [hc]),
        List.takeWhile_cons_of_pos (by simp only [bne_iff_ne, ne_eq]; exact fun hd => hc (h10.mpr hd))]
      exact List.Forall₂.cons hcd ih

theorem CaseEq_streamRest (v : Nat) (a b : List Nat) (h : CaseEq a b) :
    CaseEq (streamRest v a) (streamRest v b) := by
  unfold streamRest
  split
  · exact List.Forall₂.nil
  · exact CaseEq_takeWhile_ne10 _ _ (CaseEq_dropWhile_digits a b h)

theorem tokens_congr_aux : ∀ (n : Nat) (a b : List Nat), a.length ≤ n → CaseEq a b →
    tokens a = tokens b := by
  intro n
  induction n with
  | zero =>
    intro a b hn h
    cases h with
    | nil => rfl
    | cons _ _ => simp at hn
  | succ n ih =>
    intro a b hn h
    cases h with
    | nil => rfl
    | cons hcd hrest =>
      rename_i c d a' b'
      obtain ⟨hdig, heqd, _⟩ := toupper_eq_cases c d hcd
      cases hc : isdigit c with
      | true =>
        have hd : isdigit d = true := hdig ▸ hc
        have hrun : (c :: a').takeWhile isdigit = (d :: b').takeWhile isdigit :=
          CaseEq_takeWhile_digits _ _ (List.Forall₂.cons hcd hrest)
        rw [tokens_cons_digit c a' hc, tokens_cons_digit d b' hd, hrun]
        have hcase : CaseEq (streamRest (digitsToNat ((d :: b').takeWhile isdigit)) (c :: a'))
            (streamRest (digitsToNat ((d :: b').takeWhile isdigit)) (d :: b')) :=
          CaseEq_streamRest _ _ _ (List.Forall₂.cons hcd hrest)
        have hlen := streamRest_length_lt (digitsToNat ((d :: b').takeWhile isdigit)) c a' hc
        rw [ih _ _ (by simp only [List.length_cons] at hn hlen; omega) hcase]
      | false =>
        have hd : isdigit d = false := hdig ▸ hc
        rw [tokens_cons_chr c a' hc, tokens_cons_chr d b' hd]
        have : chrKey c = chrKey d := by
          simp [chrKey, hcd]
        rw [this, ih _ _ (by simp only [List.length_cons] at hn; omega) hrest]

theorem tokens_congr (a b : List Nat) (h : CaseEq a b) : tokens a = tokens b :=
  tokens_congr_aux a.length a b (Nat.le_refl _) h

theorem tokens_ne_nil (c : Nat) (l : List Nat) : tokens (c :: l) ≠ [] := by
  cases hc : isdigit c with
  | true => rw [tokens_cons_digit c l hc]; simp
  | false => rw [tokens_cons_chr c l hc]; simp

theorem takeWhile_ne10_eq_self : ∀ l : List Nat, 10 ∉ l → l.takeWhile (fun c => c != 10) = l := by
  intro l
  induction l with
  | nil => intro _; rfl
  | cons x xs ih =>
    intro h
    rw [List.mem_cons] at h
    push_neg at h
    rw [List.takeWhile_cons_of_pos (by simp; exact fun hx => h.1 hx.symm), ih h.2]

/-- The source's both-non-digit rule, restated for the wrapper. -/
theorem compare_cons_chr (x y : Nat) (a b : List Nat)
    (hx : isdigit x = false) (hy : isdigit y = false) :
    compare_path_natural (x :: a) (y :: b) =
      if toupper x = toupper y then compare_path_natural a b
      else decide (toupper x < toupper y) := by
  rw [compare_path_natural_eq_lexLt, tokens_cons_chr x a hx, tokens_cons_chr y b hy, lexLt]
  by_cases he : toupper x = toupper y
  · rw [if_pos he, compare_path_natural_eq_lexLt]
    have h1 : decide (chrKey x < chrKey y) = false := by simp [chrKey, he]
    have h2 : (chrKey x == chrKey y) = true := by simp [chrKey, he]
    rw [h1, h2]
    simp
  · rw [if_neg he]
    have h1 : decide (chrKey x < chrKey y) = decide (toupper x < toupper y) := by
      simp [chrKey]
    have h2 : (chrKey x == chrKey y) = false := by simp [chrKey]; omega
    rw [h1, h2]
    simp

/-- The source's both-digit rule for in-range digit runs whose
remainders hold no newline byte. -/
theorem compare_cons_digit (x y : Nat) (a b : List Nat)
    (hx : isdigit x = true) (hy : isdigit y = true)
    (hva : digitsToNat ((x :: a).takeWhile isdigit) ≤ INT_MAX)
    (hvb : digitsToNat ((y :: b).takeWhile isdigit) ≤ INT_MAX)
    (hna : 10 ∉ (x :: a).dropWhile isdigit)
    (hnb : 10 ∉ (y :: b).dropWhile isdigit) :
    compare_path_natural (x :: a) (y :: b) =
      (if digitsToNat ((x :: a).takeWhile isdigit) ≠ digitsToNat ((y :: b).takeWhile isdigit) then
        decide (digitsToNat ((x :: a).takeWhile isdigit) < digitsToNat ((y :: b).takeWhile isdigit))
      else
        compare_path_natural ((x :: a).dropWhile isdigit) ((y :: b).dropWhile isdigit)) := by
  have hsa : streamRest (digitsToNat ((x :: a).takeWhile isdigit)) (x :: a)
      = (x :: a).dropWhile isdigit := by
    rw [streamRest, if_neg (by omega)]
    exact takeWhile_ne10_eq_self _ hna
  have hsb : streamRest (digitsToNat ((y :: b).takeWhile isdigit)) (y :: b)
      = (y :: b).dropWhile isdigit := by
    rw [streamRest, if_neg (by omega)]
    exact takeWhile_ne10_eq_self _ hnb
  rw [compare_path_natural_eq_lexLt, tokens_cons_digit x a hx, tokens_cons_digit y b hy,
    hsa, hsb, lexLt, Nat.min_eq_left hva, Nat.min_eq_left hvb]
  by_cases he : digitsToNat ((x :: a).takeWhile isdigit) = digitsToNat ((y :: b).takeWhile isdigit)
  · rw [if_neg (by simp [he]), compare_path_natural_eq_lexLt, he]
    simp
  · rw [if_pos he]
    have h2 : (digitsToNat ((x :: a).takeWhile isdigit)
        == digitsToNat ((y :: b).takeWhile isdigit)) = false := by simp [he]
    rw [h2]
    simp

/-- The source's both-digit rule when both digit runs overflow `int`:
both parses clamp to `INT_MAX` and fail, `getline` leaves both
remainders empty, and the two strings compare as equivalent. -/
theorem compare_cons_digit_overflow (x y : Nat) (a b : List Nat)
    (hx : isdigit x = true) (hy : isdigit y = true)
    (hva : INT_MAX < digitsToNat ((x :: a).takeWhile isdigit))
    (hvb : INT_MAX < digitsToNat ((y :: b).takeWhile isdigit)) :
    compare_path_natural (x :: a) (y :: b) = false ∧
    compare_path_natural (y :: b) (x :: a) = false := by
  have hsa : streamRest (digitsToNat ((x :: a).takeWhile isdigit)) (x :: a) = [] := by
    rw [streamRest, if_pos hva]
  have hsb : streamRest (digitsToNat ((y :: b).takeWhile isdigit)) (y :: b) = [] := by
    rw [streamRest, if_pos hvb]
  constructor <;>
    rw [compare_path_natural_eq_lexLt, tokens_cons_digit x a hx, tokens_cons_digit y b hy,
      hsa, hsb, tokens_nil, Nat.min_eq_right (by omega), Nat.min_eq_right (by omega), lexLt] <;>
    simp [lexLt]

/-! Concrete byte strings used by the claim instances (ASCII). -/

/-- Byte string "file1.png". -/
def s_file1 : List Nat := [102, 105, 108, 101, 49, 46, 112, 110, 103]

/-- Byte string "file2.png". -/
def s_file2 : List Nat := [102, 105, 108, 101, 50, 46, 112, 110, 103]

/-- Byte string "file10.png". -/
def s_file10 : List Nat := [102, 105, 108, 101, 49, 48, 46, 112, 110, 103]

/-- Byte string "ABC". -/
def s_ABC : List Nat := [65, 66, 67]

/-- Byte string "abc". -/
def s_abc : List Nat := [97, 98, 99]

/-- Byte string "3000000000". -/
def s_big3 : List Nat := [51, 48, 48, 48, 48, 48, 48, 48, 48, 48]

/-- Byte string "9999999999". -/
def s_big9 : List Nat := [57, 57, 57, 57, 57, 57, 57, 57, 57, 57]

/-- Byte string "4000000000". -/
def s_big4 : List Nat := [52, 48, 48, 48, 48, 48, 48, 48, 48, 48]

/-- Byte string "8000000000". -/
def s_big8 : List Nat := [56, 48, 48, 48, 48, 48, 48, 48, 48, 48]

/-- Byte string "img1.jpg". -/
def s_img1jpg : List Nat := [105, 109, 103, 49, 46, 106, 112, 103]

/-- Byte string "img2.jpg". -/
def s_img2jpg : List Nat := [105, 109, 103, 50, 46, 106, 112, 103]

/-- Byte string "IMG3.jpg". -/
def s_IMG3jpg : List Nat := [73, 77, 71, 51, 46, 106, 112, 103]

/-- Byte string "img10.jpg". -/
def s_img10jpg : List Nat := [105, 109, 103, 49, 48, 46, 106, 112, 103]

/-- Byte string "subdir". -/
def s_subdir : List Nat := [115, 117, 98, 100, 105, 114]

/-- Byte string "img007.png". -/
def s_img007png : List Nat := [105, 109, 103, 48, 48, 55, 46, 112, 110, 103]

/-- Byte string "img7.png". -/
def s_img7png : List Nat := [105, 109, 103, 55, 46, 112, 110, 103]

/-- Byte string "img1.png". -/
def s_img1png : List Nat := [105, 109, 103, 49, 46, 112, 110, 103]

/-- Byte string "img1". -/
def s_img1 : List Nat := [105, 109, 103, 49]

/-- Byte string "a1.png". -/
def s_a1png : List Nat := [97, 49, 46, 112, 110, 103]

/-- Byte string "a2.png". -/
def s_a2png : List Nat := [97, 50, 46, 112, 110, 103]

/-- Byte string "a10.png". -/
def s_a10png : List Nat := [97, 49, 48, 46, 112, 110, 103]

/-- Byte string "07x". -/
def s_zeros07x : List Nat := [48, 55, 120]

/-- Byte string "x". -/
def s_x : List Nat := [120]

/-! Claim theorems. -/

/-- C1: for every directory that can be opened, `list_directory` returns
status 0 and its output holds exactly the relative names of the entries
classified as regular files (a permutation of them, with no
deduplication), sorted ascending by `compare_path_natural`; on the
spec's example directory (regular files img2.jpg, img10.jpg, img1.jpg,
IMG3.jpg and a subdirectory) it returns exactly
[img1.jpg, img2.jpg, IMG3.jpg, img10.jpg]. -/
theorem C1_list_directory_success :
    (∀ ents : List Dirent,
      (list_directory (some ents)).1 = 0 ∧
      ((list_directory (some ents)).2).Perm
        ((ents.filter (fun e => e.d_type == DT_REG)).map (fun e => e.d_name)) ∧
      SortedNat (list_directory (some ents)).2) ∧
    list_directory (some [⟨s_img2jpg, DT_REG⟩, ⟨s_img10jpg, DT_REG⟩,
        ⟨s_img1jpg, DT_REG⟩, ⟨s_IMG3jpg, DT_REG⟩, ⟨s_subdir, DT_DIR⟩])
      = (0, [s_img1jpg, s_img2jpg, s_IMG3jpg, s_img10jpg]) := by
  constructor
  · intro ents
    exact ⟨rfl, sortPaths_perm _, sortPaths_sorted _⟩
  · decide

/-- C2 counterexample: both operands are digit-leading and their maximal
digit runs denote different integers (3000000000 < 9999999999), so the
claim demands `compare_path_natural` return the order of those values
(true), but the code yields false: both runs overflow `int`, both
parses clamp to `INT_MAX`, and the failed streams leave both remainders
empty. -/
theorem C2_counterexample :
    isdigit (s_big3.headD 0) = true ∧
    isdigit (s_big9.headD 0) = true ∧
    digitsToNat (s_big3.takeWhile isdigit) < digitsToNat (s_big9.takeWhile isdigit) ∧
    compare_path_natural s_big3 s_big9 = false := by
  decide

/-- C2 (amended): for digit-leading operands whose maximal digit runs
denote values within `int` range and whose remainders after the runs
contain no newline byte, the comparison parses both runs; if the values
differ the result is their order, and if they are equal it recurses on
the remainder strings after the runs. -/
theorem C2_digit_parse_rule (x y : Nat) (a b : List Nat)
    (hx : isdigit x = true) (hy : isdigit y = true)
    (hva : digitsToNat ((x :: a).takeWhile isdigit) ≤ INT_MAX)
    (hvb : digitsToNat ((y :: b).takeWhile isdigit) ≤ INT_MAX)
    (hna : 10 ∉ (x :: a).dropWhile isdigit)
    (hnb : 10 ∉ (y :: b).dropWhile isdigit) :
    (digitsToNat ((x :: a).takeWhile isdigit) ≠ digitsToNat ((y :: b).takeWhile isdigit) →
      compare_path_natural (x :: a) (y :: b)
        = decide (digitsToNat ((x :: a).takeWhile isdigit)
            < digitsToNat ((y :: b).takeWhile isdigit))) ∧
    (digitsToNat ((x :: a).takeWhile isdigit) = digitsToNat ((y :: b).takeWhile isdigit) →
      compare_path_natural (x :: a) (y :: b)
        = compare_path_natural ((x :: a).dropWhile isdigit) ((y :: b).dropWhile isdigit)) := by
  have h := compare_cons_digit x y a b hx hy hva hvb hna hnb
  constructor
  · intro hne
    rw [h, if_pos hne]
  · intro heq
    rw [h, if_neg (by simp [heq])]

/-- C2 witness: "007x" and "7x" parse equal runs (both 7), so the
comparison recurses on the remainders after the runs. -/
theorem C2_witness :
    compare_path_natural (48 :: s_zeros07x) (55 :: s_x)
      = compare_path_natural ((48 :: s_zeros07x).dropWhile isdigit)
          ((55 :: s_x).dropWhile isdigit) :=
  (C2_digit_parse_rule 48 55 s_zeros07x s_x (by decide) (by decide) (by decide) (by decide)
    (by decide) (by decide)).2 (by decide)

/-- C3: `compare_path_natural` is a strict weak ordering — irreflexive,
asymmetric, transitive, with transitive incomparability — and in
particular file1.png < file2.png < file10.png (with the implied
file1.png < file10.png). -/
theorem C3_strict_weak_order :
    (∀ a, compare_path_natural a a = false) ∧
    (∀ a b, compare_path_natural a b = true → compare_path_natural b a = false) ∧
    (∀ a b c, compare_path_natural a b = true → compare_path_natural b c = true →
      compare_path_natural a c = true) ∧
    (∀ a b c,
      (compare_path_natural a b = false ∧ compare_path_natural b a = false) →
      (compare_path_natural b c = false ∧ compare_path_natural c b = false) →
      (compare_path_natural a c = false ∧ compare_path_natural c a = false)) ∧
    compare_path_natural s_file1 s_file2 = true ∧
    compare_path_natural s_file2 s_file10 = true ∧
    compare_path_natural s_file1 s_file10 = true :=
  ⟨compare_irrefl, compare_asymm, compare_trans, compare_incomp_trans,
    by decide, by decide, by decide⟩

/-- C3 witness: asymmetry applied at file1.png/file2.png and
transitivity applied along the file1 < file2 < file10 chain. -/
theorem C3_witness :
    compare_path_natural s_file2 s_file1 = false ∧
    compare_path_natural s_file1 s_file10 = true :=
  ⟨C3_strict_weak_order.2.1 s_file1 s_file2 (by decide),
   C3_strict_weak_order.2.2.1 s_file1 s_file2 s_file10 (by decide) (by decide)⟩

/-- C4: when the directory cannot be opened, `list_directory` returns a
nonzero status and the output sequence stays empty (no partial result);
when it can be opened, the status is 0. -/
theorem C4_open_failure :
    ((list_directory none).1 ≠ 0 ∧ (list_directory none).2 = []) ∧
    (∀ ents, (list_directory (some ents)).1 = 0) :=
  ⟨⟨by decide, rfl⟩, fun _ => rfl⟩

/-- C5 counterexample: both digit runs denote values outside `int`
range and differ numerically (4000000000 < 8000000000), yet the code
reports the two strings equivalent in both directions instead of
ordering them by numeric value — the overflow is not guarded. -/
theorem C5_counterexample :
    INT_MAX < digitsToNat (s_big4.takeWhile isdigit) ∧
    INT_MAX < digitsToNat (s_big8.takeWhile isdigit) ∧
    digitsToNat (s_big4.takeWhile isdigit) < digitsToNat (s_big8.takeWhile isdigit) ∧
    compare_path_natural s_big4 s_big8 = false ∧
    compare_path_natural s_big8 s_big4 = false := by
  decide

/-- C5 (amended): the overflow is not guarded by value — for
digit-leading operands whose maximal digit runs both exceed `INT_MAX`,
`istringstream >> int` clamps both parses to `INT_MAX` and fails, the
subsequent `getline` leaves both remainders empty, and the two strings
compare as equivalent (neither less) regardless of the runs' numeric
order. -/
theorem C5_overflow_unguarded (x y : Nat) (a b : List Nat)
    (hx : isdigit x = true) (hy : isdigit y = true)
    (hva : INT_MAX < digitsToNat ((x :: a).takeWhile isdigit))
    (hvb : INT_MAX < digitsToNat ((y :: b).takeWhile isdigit)) :
    compare_path_natural (x :: a) (y :: b) = false ∧
    compare_path_natural (y :: b) (x :: a) = false :=
  compare_cons_digit_overflow x y a b hx hy hva hvb

/-- C5 witness: "4000000000" and "8000000000" both overflow and compare
equivalent. -/
theorem C5_witness :
    compare_path_natural (52 :: [48, 48, 48, 48, 48, 48, 48, 48, 48])
        (56 :: [48, 48, 48, 48, 48, 48, 48, 48, 48]) = false ∧
    compare_path_natural (56 :: [48, 48, 48, 48, 48, 48, 48, 48, 48])
        (52 :: [48, 48, 48, 48, 48, 48, 48, 48, 48]) = false :=
  C5_overflow_unguarded 52 56 [48, 48, 48, 48, 48, 48, 48, 48, 48]
    [48, 48, 48, 48, 48, 48, 48, 48, 48] (by decide) (by decide) (by decide) (by decide)

/-- C6: for non-empty operands with non-digit leading bytes the
comparison uppercases both leading bytes, recursing on the tails when
they agree and otherwise ordering by the uppercased bytes; "ABC" and
"abc" compare equal both ways, and the equivalence is stable under any
case permutation of ASCII letters (pointwise `toupper`-equal strings
are always equivalent). -/
theorem C6_case_insensitive :
    (∀ x y a b, isdigit x = false → isdigit y = false →
      compare_path_natural (x :: a) (y :: b) =
        if toupper x = toupper y then compare_path_natural a b
        else decide (toupper x < toupper y)) ∧
    (compare_path_natural s_ABC s_abc = false ∧
     compare_path_natural s_abc s_ABC = false) ∧
    (∀ a b, CaseEq a b →
      compare_path_natural a b = false ∧ compare_path_natural b a = false) := by
  refine ⟨fun x y a b hx hy => compare_cons_chr x y a b hx hy, ⟨by decide, by decide⟩, ?_⟩
  intro a b h
  rw [compare_path_natural_eq_lexLt, compare_path_natural_eq_lexLt, tokens_congr a b h]
  exact ⟨lexLt_irrefl _, lexLt_irrefl _⟩

/-- C6 witness: the non-digit head rule applied at bytes 104 and 72
(lowercase h against uppercase H). -/
theorem C6_witness :
    compare_path_natural (104 :: s_abc) (72 :: s_ABC) =
      (if toupper 104 = toupper 72 then compare_path_natural s_abc s_ABC
       else decide (toupper 104 < toupper 72)) :=
  C6_case_insensitive.1 104 72 s_abc s_ABC (by decide) (by decide)

/-- C7: the empty string is less than every non-empty string, two empty
strings are equivalent, and no string is less than the empty string. -/
theorem C7_empty_string_rule :
    compare_path_natural [] [] = false ∧
    (∀ y b, compare_path_natural [] (y :: b) = true) ∧
    (∀ a, compare_path_natural a [] = false) := by
  refine ⟨rfl, fun y b => rfl, fun a => ?_⟩
  cases a with
  | nil => rfl
  | cons x l => rfl

/-- C8: `compare_path_natural` terminates on all finite strings — any
recursion-depth budget exceeding the combined length of the operands is
enough for the fuelled recursion (each step strips at least one byte,
or a whole digit run, from at least one operand and stops when an
operand is empty) to finish with the comparator's value instead of
running out of fuel. -/
theorem C8_termination (a b : List Nat) (fuel : Nat)
    (h : a.length + b.length < fuel) :
    compare_fuel fuel a b = some (compare_path_natural a b) :=
  compare_fuel_sufficient fuel a b h

/-- C8 witness: fuel 20 suffices for img7.png against img10.png. -/
theorem C8_witness :
    compare_fuel 20 s_img7png s_img10jpg = some (compare_path_natural s_img7png s_img10jpg) :=
  C8_termination s_img7png s_img10jpg 20 (by decide)

/-- Contract of the `std::sort` call at `src/filesystem_utils.h:124`:
the sorted range is a permutation of the input, ordered ascending by
the comparator.  The C++ standard specifies nothing further — in
particular `std::sort` is not stable, so the relative order of
equivalent elements in the output is left open by this contract. -/
def IsSortImpl (s : List (List Nat) → List (List Nat)) : Prop :=
  ∀ l, (s l).Perm l ∧ SortedNat (s l)

/-- Strictly sorted ascending by `compare_path_natural`: every element
is less than every later element, so no two elements are equivalent. -/
def StrictSortedNat (l : List (List Nat)) : Prop :=
  l.Pairwise (fun x y => compare_path_natural x y = true)

/-- A sort satisfying the `std::sort` contract that swaps the
equivalent pair "ABC", "abc" — a behaviour the contract permits, since
it fixes no order between equivalent elements. -/
def badSort (l : List (List Nat)) : List (List Nat) :=
  if l = [s_ABC, s_abc] then [s_abc, s_ABC] else sortPaths l

theorem badSort_contract : IsSortImpl badSort := by
  intro l
  rw [badSort]
  split
  · rename_i hl
    subst hl
    constructor
    · exact List.Perm.swap s_ABC s_abc []
    · rw [SortedNat]; decide
  · exact ⟨sortPaths_perm l, sortPaths_sorted l⟩

/-- A sorted permutation of a strictly sorted list is that list: the
ordering leaves a strictly sorted arrangement no freedom. -/
theorem sorted_perm_eq_of_strict :
    ∀ l : List (List Nat), StrictSortedNat l →
      ∀ out, out.Perm l → SortedNat out → out = l := by
  intro l
  induction l with
  | nil =>
    intro _ out hp _
    exact List.perm_nil.mp hp
  | cons x xs ih =>
    intro hstrict out hp hsorted
    rw [StrictSortedNat, List.pairwise_cons] at hstrict
    obtain ⟨hx, hxs⟩ := hstrict
    cases out with
    | nil =>
      exact absurd (List.perm_nil.mp hp.symm) (by simp)
    | cons y ys =>
      rw [SortedNat, List.pairwise_cons] at hsorted
      obtain ⟨hy, hys⟩ := hsorted
      have hymem : y ∈ x :: xs := hp.subset (List.mem_cons_self y ys)
      rw [List.mem_cons] at hymem
      by_cases hyx : y = x
      · subst hyx
        rw [ih hxs ys hp.cons_inv hys]
      · have hyxs : y ∈ xs := hymem.resolve_left hyx
        have hxy : compare_path_natural x y = true := hx y hyxs
        have hxmem : x ∈ y :: ys := hp.symm.subset (List.mem_cons_self x xs)
        rw [List.mem_cons] at hxmem
        rcases hxmem with hxeq | hxys
        · rw [hxeq, compare_irrefl y] at hxy
          exact absurd hxy (by simp)
        · rw [hy x hxys] at hxy
          exact absurd hxy (by simp)

/-- C9 counterexample: the sort used by `list_directory` is `std::sort`,
constrained only to return a sorted permutation; `badSort` satisfies
that contract yet maps the already-sorted sequence ["ABC", "abc"]
(whose elements are equivalent under the comparator, so the sequence is
sorted ascending) to ["abc", "ABC"] instead of returning it
identically — so tie-order preservation does not follow from the
program. -/
theorem C9_counterexample :
    IsSortImpl badSort ∧
    SortedNat [s_ABC, s_abc] ∧
    badSort [s_ABC, s_abc] ≠ [s_ABC, s_abc] :=
  ⟨badSort_contract, by rw [SortedNat]; decide, by rw [badSort]; decide⟩

/-- C9 (amended): for every sequence sorted strictly ascending by
`compare_path_natural` (no two elements equivalent), every sort
satisfying the `std::sort` contract — a permutation of the input,
sorted ascending by the comparator — returns the identical sequence,
element for element; when the input holds equivalent elements the
output is still some sorted permutation, but their relative order is
not guaranteed. -/
theorem C9_sort_contract (s : List (List Nat) → List (List Nat)) (hs : IsSortImpl s)
    (l : List (List Nat)) (hl : StrictSortedNat l) : s l = l :=
  sorted_perm_eq_of_strict l hl (s l) (hs l).1 (hs l).2

/-- C9 witness: the model sort satisfies the contract and returns the
strictly sorted sequence a1.png, a2.png, a10.png unchanged. -/
theorem C9_witness :
    sortPaths [s_a1png, s_a2png, s_a10png] = [s_a1png, s_a2png, s_a10png] :=
  C9_sort_contract sortPaths (fun l => ⟨sortPaths_perm l, sortPaths_sorted l⟩)
    [s_a1png, s_a2png, s_a10png] (by rw [StrictSortedNat]; decide)

/-- C10: if a path contains a dot, the stem, a dot and the extension
reassemble the path with the split at the last dot (the extension holds
no dot); if it contains none, the stem is the whole path and the
extension is empty. -/
theorem C10_extension_split (path : List Nat) :
    (46 ∈ path →
      get_file_name_without_extension path ++ 46 :: get_file_extension path = path ∧
      46 ∉ get_file_extension path) ∧
    (46 ∉ path →
      get_file_name_without_extension path = path ∧ get_file_extension path = []) := by
  cases hr : rfind path 46 with
  | none =>
    have hnm := (rfind_eq_none_iff 46 path).mp hr
    constructor
    · intro hmem
      exact absurd hmem hnm
    · intro _
      simp [get_file_name_without_extension, get_file_extension, hr]
  | some i =>
    obtain ⟨h1, h2⟩ := rfind_some 46 path i hr
    constructor
    · intro _
      simp only [get_file_name_without_extension, get_file_extension, hr]
      exact ⟨h1, h2⟩
    · intro hnm
      exfalso
      apply hnm
      rw [← h1]
      exact List.mem_append_right _ (List.mem_cons_self _ _)

/-- C10 witness: img1.png splits into img1 and png and reassembles;
img1 has no dot and is returned whole. -/
theorem C10_witness :
    (get_file_name_without_extension s_img1png ++ 46 :: get_file_extension s_img1png
      = s_img1png) ∧
    get_file_name_without_extension s_img1 = s_img1 :=
  ⟨((C10_extension_split s_img1png).1 (by decide)).1,
   ((C10_extension_split s_img1).2 (by decide)).1⟩

/-- C4 witness: an openable (empty) directory yields status 0. -/
theorem C4_witness : (list_directory (some [])).1 = 0 :=
  C4_open_failure.2 []
